import Mathlib

/-!
Shallow embedding of `src/librustdoc/clean/inline.rs` (inlining of external
documentation into the current AST, rustdoc circa 2014).

Modelling conventions:
* Machine-level identifiers (`ast::DefId`, `ast::NodeId`) are pairs/naturals.
* The compiler-internal representations that inline.rs merely threads through
  (generics, signatures, cleaned values, ...) are opaque wrapper types; the
  "Clean" transformation, explicitly out of scope for the spec, is a record of
  black-box functions (`CleanOps`).
* The type context `ty::ctxt` together with `csearch`/`decoder` metadata
  queries is one immutable record of query functions (`Tcx`): the metadata of
  already-compiled crates never changes during a documentation pass.
* The process-wide `external_paths` cache is passed as explicit state
  (`PathCache`); it is only ever written by this module.
* `fail!`/`unreachable!`/`unwrap` aborts are modelled with `Except Fatal`.
* Module reconstruction recurses through metadata with no cycle guard, so the
  recursive entry point takes a fuel argument; exhausted fuel is a distinct
  `Fatal.fuelExhausted` outcome that the original program (which would simply
  not terminate) never produces at sufficient fuel.
-/

namespace Rustdoc

/-- Crate number of the crate being compiled (`ast::LOCAL_CRATE`, which is 0). -/
def LOCAL_CRATE : Nat := 0

/-- Model of `ast::DefId`: a crate number together with a node id. -/
structure DefId where
  krate : Nat
  node : Nat
deriving DecidableEq, Repr

/-- Model of `ast_util::is_local`: a definition is local iff its crate number
is `LOCAL_CRATE`. -/
def is_local (did : DefId) : Bool := did.krate == LOCAL_CRATE

/-- Model of `ast::NodeId`. -/
abbrev NodeId := Nat

/-- Model of `ast::FnStyle` (normal vs the style named by Rust's reserved
keyword for unchecked code, renamed here). The value is opaque to inline.rs:
it is only threaded from the definition into the produced function item. -/
inductive FnStyle where
  | NormalFn
  | UncheckedFn
deriving DecidableEq, Repr

/-- Model of `clean::TypeKind`, the restricted kind tag stored in the
external-paths cache. -/
inductive TypeKind where
  | TypeEnum
  | TypeFunction
  | TypeModule
  | TypeStatic
  | TypeStruct
  | TypeTrait
  | TypeVariant
deriving DecidableEq, Repr

/-- Model of `ast::Visibility` as used here (`ast::Public` / `ast::Inherited`). -/
inductive Visibility where
  | Public
  | Inherited
deriving DecidableEq, Repr

/-- Model of `clean::Span` (file name plus start/end positions). -/
structure Span where
  filename : String
  loline : Nat
  locol : Nat
  hiline : Nat
  hicol : Nat
deriving DecidableEq, Repr

/-- Model of `clean::Span::empty()`. -/
def Span.empty : Span := ⟨"", 0, 0, 0, 0⟩

/-- Model of `doctree::StructType`: the classified shape of a struct. -/
inductive StructType where
  | Plain
  | Tuple
  | Newtype
  | Unit
deriving DecidableEq, Repr

/-- Interned identifier names (`syntax::ast::Name`), modelled as strings. -/
abbrev Name := String

/-- Model of the reserved sentinel name
`syntax::parse::token::special_idents::unnamed_field.name`. Only its
distinguishability matters. -/
def unnamed_field_name : Name := "<unnamed_field>"

/-! Opaque compiler-internal representations consumed by inline.rs. -/

/-- Model of compiler-internal `ty::Generics`; opaque, only passed to Clean. -/
structure Generics where
  val : Nat
deriving DecidableEq, Repr

/-- Model of a compiler-internal bare-function signature (`ty::FnSig`);
opaque, only passed to Clean. -/
structure FnSig where
  val : Nat
deriving DecidableEq, Repr

/-- Model of `ty::BareFnTy`; only its `sig` field is consumed here. -/
structure BareFnTy where
  sig : FnSig
deriving DecidableEq, Repr

/-- Model of the structural tag `ty::get(t.ty).sty` of a resolved type, with
the two constructors inline.rs dispatches on and an opaque remainder. -/
inductive Sty where
  | ty_bare_fn (f : BareFnTy)
  | ty_enum (edid : DefId) (substs : Nat)
  | ty_other (code : Nat)
deriving DecidableEq, Repr

/-- Model of a compiler-internal type `ty::t`, observed through its `sty`. -/
structure Ty where
  sty : Sty
deriving DecidableEq, Repr

/-- Model of `ty::ty_param_bounds_and_ty`, the result of
`ty::lookup_item_type`: the resolved type and its generics. -/
structure ItemType where
  ty : Ty
  generics : Generics
deriving DecidableEq, Repr

/-- Model of `ty::field_ty` as returned by `ty::lookup_struct_fields`; only
the field name is inspected here. -/
structure Field where
  name : Name
  id : DefId
deriving DecidableEq, Repr

/-- Model of a raw `syntax::ast::Attribute`, observed through `name()`,
`value_str()` and the mutable `node.is_sugared_doc` flag. -/
structure RawAttr where
  name : String
  value_str : Option String
  is_sugared_doc : Bool
deriving DecidableEq, Repr

/-- Model of a compiler-internal `ty::TraitRef`; opaque, only passed to Clean. -/
structure TraitRef where
  val : Nat
deriving DecidableEq, Repr

/-- Model of a compiler-internal `ty::Method`; opaque, only passed to Clean. -/
structure RawMethod where
  val : Nat
deriving DecidableEq, Repr

/-- Model of a compiler-internal `ty::VariantInfo`; opaque, only passed to
Clean. -/
structure VariantInfo where
  val : Nat
deriving DecidableEq, Repr

/-- Model of `ty::TraitDef` as returned by `ty::lookup_trait_def`; only its
generics are consumed here. -/
structure TraitDef where
  generics : Generics
deriving DecidableEq, Repr

/-- Model of `ast::Def`, restricted to the kinds inline.rs names plus two
representative further kinds that fall into its catch-all arm (the remaining
`ast::Def` variants behave like these two there). -/
inductive Def where
  | DefFn (did : DefId) (style : FnStyle)
  | DefStatic (did : DefId) (mutable_ : Bool)
  | DefMod (did : DefId)
  | DefVariant (enum_did : DefId) (variant_did : DefId)
  | DefTy (did : DefId)
  | DefTrait (did : DefId)
  | DefStruct (did : DefId)
  | DefTyParam (did : DefId) (idx : Nat)
deriving DecidableEq, Repr

/-- Model of `ast_util::def_id_of_def` on the modelled `ast::Def` kinds (for
a variant it is the variant's own id). -/
def def_id_of_def : Def → DefId
  | .DefFn did _ => did
  | .DefStatic did _ => did
  | .DefMod did => did
  | .DefVariant _ vdid => vdid
  | .DefTy did => did
  | .DefTrait did => did
  | .DefStruct did => did
  | .DefTyParam did _ => did

/-- Model of `decoder::DefLike`: the kinds of direct children a module can
have in crate metadata. -/
inductive DlItem where
  | DlDef (d : Def)
  | DlImpl (did : DefId)
  | DlField
deriving DecidableEq, Repr

/-! Normalized ("cleaned") representations. Values produced by the black-box
Clean capability are opaque wrappers; the structures inline.rs itself
assembles are transcribed field by field. -/

/-- Opaque cleaned generics (`clean::Generics`). -/
structure CGenerics where
  val : Nat
deriving DecidableEq, Repr

/-- Opaque cleaned type (`clean::Type`). -/
structure CType where
  val : Nat
deriving DecidableEq, Repr

/-- Opaque cleaned function declaration (`clean::FnDecl`). -/
structure FnDecl where
  val : Nat
deriving DecidableEq, Repr

/-- Opaque cleaned self type (`clean::SelfTy`). -/
structure SelfTy where
  val : Nat
deriving DecidableEq, Repr

/-- Opaque cleaned attribute (`clean::Attribute`). -/
structure Attribute where
  val : Nat
deriving DecidableEq, Repr

/-- Model of `clean::TyParamBound`, the result of cleaning a trait
reference. -/
inductive TyParamBound where
  | TraitBound (t : CType)
  | RegionBound
deriving DecidableEq, Repr

/-- Model of `clean::Function` (fields in source order: decl, generics,
fn_style). -/
structure Function where
  decl : FnDecl
  generics : CGenerics
  fn_style : FnStyle
deriving DecidableEq, Repr

/-- Model of `clean::Typedef`. -/
structure Typedef where
  type_ : CType
  generics : CGenerics
deriving DecidableEq, Repr

/-- Model of `clean::TyMethod`, the signature-only shape of a cleaned
method. -/
structure TyMethod where
  fn_style : FnStyle
  decl : FnDecl
  self_ : SelfTy
  generics : CGenerics
deriving DecidableEq, Repr

/-- Model of `clean::Method`, the body-bearing shape of a cleaned method. -/
structure CMethod where
  fn_style : FnStyle
  decl : FnDecl
  self_ : SelfTy
  generics : CGenerics
deriving DecidableEq, Repr

mutual

/-- Model of `clean::Item`: the normalized documentation item (source span,
optional name, attributes, inner payload, visibility, owning def id). -/
inductive Item where
  | mk (source : Span) (name : Option String) (attrs : List Attribute)
       (inner : ItemEnum) (visibility : Option Visibility) (def_id : DefId)

/-- Model of the `clean::ItemEnum` payloads referenced by inline.rs, with an
opaque constructor standing for the remaining payload kinds. -/
inductive ItemEnum where
  | TraitItem (t : Trait)
  | FunctionItem (f : Function)
  | StructItem (s : Struct)
  | EnumItem (e : Enum)
  | TypedefItem (t : Typedef)
  | ModuleItem (m : Module)
  | ImplItem (i : Impl)
  | TyMethodItem (t : TyMethod)
  | MethodItem (m : CMethod)
  | OtherItem (code : Nat)

/-- Model of `clean::Trait`. -/
inductive Trait where
  | mk (generics : CGenerics) (methods : List TraitMethod) (parents : List CType)

/-- Model of `clean::TraitMethod`: a cleaned method is either required
(signature only) or provided (has a body). -/
inductive TraitMethod where
  | Required (item : Item)
  | Provided (item : Item)

/-- Model of `clean::Struct`. -/
inductive Struct where
  | mk (struct_type : StructType) (generics : CGenerics)
       (fields : List Item) (fields_stripped : Bool)

/-- Model of `clean::Enum` (fields in source order). -/
inductive Enum where
  | mk (generics : CGenerics) (variants_stripped : Bool) (variants : List Item)

/-- Model of `clean::Module`. -/
inductive Module where
  | mk (items : List Item) (is_crate : Bool)

/-- Model of `clean::Impl` (fields in source order: derived, trait_, for_,
generics, methods). -/
inductive Impl where
  | mk (derived : Bool) (trait_ : Option CType) (for_ : CType)
       (generics : CGenerics) (methods : List Item)

end

/-- Accessor for the source span of an item. -/
def Item.source : Item → Span
  | .mk s _ _ _ _ _ => s

/-- Accessor for the optional name of an item. -/
def Item.name : Item → Option String
  | .mk _ n _ _ _ _ => n

/-- Accessor for the attribute list of an item. -/
def Item.attrs : Item → List Attribute
  | .mk _ _ a _ _ _ => a

/-- Accessor for the inner payload of an item. -/
def Item.inner : Item → ItemEnum
  | .mk _ _ _ i _ _ => i

/-- Accessor for the visibility of an item. -/
def Item.visibility : Item → Option Visibility
  | .mk _ _ _ _ v _ => v

/-- Accessor for the owning def id of an item. -/
def Item.def_id : Item → DefId
  | .mk _ _ _ _ _ d => d

/-- Accessor for the classified shape of a cleaned struct. -/
def Struct.struct_type : Struct → StructType
  | .mk st _ _ _ => st

/-- Accessor for the fields-stripped flag of a cleaned struct. -/
def Struct.fields_stripped : Struct → Bool
  | .mk _ _ _ fs => fs

/-- Accessor for the generics of a cleaned struct. -/
def Struct.generics : Struct → CGenerics
  | .mk _ g _ _ => g

/-- Accessor for the cleaned fields of a cleaned struct. -/
def Struct.fields : Struct → List Item
  | .mk _ _ f _ => f

/-- Black-box record of the Clean transformations consumed by inline.rs (the
"Clean" capability of the spec, explicitly out of scope), together with
`clean::detect_derived`, which also lives outside inline.rs. -/
structure CleanOps where
  cleanGenerics : Generics → CGenerics
  cleanFnSig : DefId → FnSig → FnDecl
  cleanTy : Ty → CType
  cleanField : Field → Item
  cleanMethod : RawMethod → TraitMethod
  cleanVariants : List VariantInfo → List Item
  cleanAttr : RawAttr → Attribute
  cleanTraitRef : TraitRef → TyParamBound
  detect_derived : List Attribute → Bool

/-- Model of the type context `ty::ctxt` merged with the `csearch`/`decoder`
metadata queries reachable from it. All queries are immutable for the
process lifetime; `inherent_impls` is modelled in its populated state (the
lazy `ty::populate_implementations_for_type_if_necessary` step is an
idempotent no-op on it). -/
structure Tcx where
  def_map : NodeId → Option Def
  get_item_path : DefId → List String
  lookup_item_type : DefId → ItemType
  lookup_trait_def : DefId → TraitDef
  trait_methods : DefId → List RawMethod
  lookup_struct_fields : DefId → List Field
  enum_variants : DefId → List VariantInfo
  inherent_impls : DefId → Option (List DefId)
  get_item_attrs : DefId → List RawAttr
  get_impl_trait : DefId → Option TraitRef
  get_impl_methods : DefId → List DefId
  method : DefId → RawMethod
  each_child_of_item : DefId → List DlItem

/-- Model of `core::MaybeTyped`: whether full type-checking results are
available. -/
inductive MaybeTyped where
  | Typed (tcx : Tcx)
  | NotTyped

/-- Model of `core::DocContext` (the ambient `ctxtkey` context, threaded
explicitly); its `external_paths` cache is passed as separate state. -/
structure DocContext where
  maybe_typed : MaybeTyped

/-- Model of the `external_paths` cache: def id to (fully qualified path,
kind). -/
def PathCache := DefId → Option (List String × TypeKind)

/-- The empty path cache. -/
def PathCache.empty : PathCache := fun _ => none

/-- The fatal outcomes of inline.rs: the `fail!`/`unreachable!`/`unwrap`
aborts, plus the fuel-exhaustion artifact of modelling the unguarded module
recursion. -/
inductive Fatal where
  | badFunction
  | notATymethod
  | unimplementedField
  | unreachableRegionBound
  | unwrapFailed
  | fuelExhausted
deriving DecidableEq, Repr

/-- Model of `record_extern_fqn` (inline.rs lines 120-131): no-op when the
context holds no type information, otherwise fetch the fully qualified path
of `did` and insert `(path, kind)` keyed by `did`. -/
def record_extern_fqn (cx : DocContext) (did : DefId) (kind : TypeKind)
    (cache : PathCache) : PathCache :=
  match cx.maybe_typed with
  | .Typed tcx =>
    let fqn := tcx.get_item_path did
    fun d => if d = did then some (fqn, kind) else cache d
  | .NotTyped => cache

/-- Model of `load_attrs` (inline.rs lines 99-114): fetch the raw attributes
of `did`; flag an attribute as a sugared doc comment when it is named `doc`
and carries a string value; clean each, preserving order. -/
def load_attrs (ops : CleanOps) (tcx : Tcx) (did : DefId) : List Attribute :=
  let attrs : List Attribute := []
  attrs ++ (tcx.get_item_attrs did).map (fun a =>
    let a := if a.name == "doc" && a.value_str.isSome then
      { a with is_sugared_doc := true } else a
    ops.cleanAttr a)

/-- Model of `build_external_trait` (inline.rs lines 133-141). The parents
list is left empty exactly as in the source (a documented incompleteness). -/
def build_external_trait (ops : CleanOps) (tcx : Tcx) (did : DefId) : Trait :=
  let d := tcx.lookup_trait_def did
  let methods := tcx.trait_methods did
  ⟨ops.cleanGenerics d.generics, methods.map ops.cleanMethod, []⟩

/-- Model of `build_external_function` (inline.rs lines 143-155): the
resolved type must be structurally a bare function signature, otherwise the
source aborts with `fail!("bad function")`. -/
def build_external_function (ops : CleanOps) (tcx : Tcx) (did : DefId)
    (style : FnStyle) : Except Fatal Function :=
  let t := tcx.lookup_item_type did
  match t.ty.sty with
  | .ty_bare_fn f => .ok ⟨ops.cleanFnSig did f.sig, ops.cleanGenerics t.generics, style⟩
  | _ => .error .badFunction

/-- Model of `build_struct` (inline.rs lines 157-174). The source matches on
the field slice with guards; a single non-sentinel field falls through the
guarded `[ref f]` and `[ref f, ..]` arms to the `_ => Plain` arm, which the
nested conditionals below reproduce. -/
def build_struct (ops : CleanOps) (tcx : Tcx) (did : DefId) : Struct :=
  let t := tcx.lookup_item_type did
  let fields := tcx.lookup_struct_fields did
  ⟨match fields with
    | [] => .Unit
    | [f] => if f.name = unnamed_field_name then .Newtype else .Plain
    | f :: _ :: _ => if f.name = unnamed_field_name then .Tuple else .Plain,
   ops.cleanGenerics t.generics,
   fields.map ops.cleanField,
   false⟩

/-- Model of `build_type` (inline.rs lines 176-193): an enum structural tag
yields an enum payload (variants of the enum's own def id, not stripped);
every other tag yields a typedef payload. -/
def build_type (ops : CleanOps) (tcx : Tcx) (did : DefId) : ItemEnum :=
  let t := tcx.lookup_item_type did
  match t.ty.sty with
  | .ty_enum edid _ =>
    .EnumItem ⟨ops.cleanGenerics t.generics, false,
               ops.cleanVariants (tcx.enum_variants edid)⟩
  | _ => .TypedefItem ⟨ops.cleanTy t.ty, ops.cleanGenerics t.generics⟩

/-- Sequential effectful map over a list, modelling Rust iterator maps whose
closure can abort (`fail!` inside `map` aborts at the first offending
element). -/
def mapE {α β : Type} (f : α → Except Fatal β) : List α → Except Fatal (List β)
  | [] => .ok []
  | a :: l =>
    match f a with
    | .error e => .error e
    | .ok b =>
      match mapE f l with
      | .error e => .error e
      | .ok bs => .ok (b :: bs)

/-- Model of `build_impl` (inline.rs lines 210-253): clean every method id of
the implementation (a cleaned method must be signature-shaped, i.e. a
`TyMethodItem`, which is repackaged as a body-bearing `MethodItem`; anything
else aborts with `fail!("not a tymethod")`), then assemble the impl item
with no name, inherited visibility, empty span and the impl's own def id.
Cleaning the optional bound trait reference must give a trait bound (a
region bound is `unreachable!`). -/
def build_impl (ops : CleanOps) (tcx : Tcx) (did : DefId) : Except Fatal Item :=
  let associated_trait := tcx.get_impl_trait did
  let attrs := load_attrs ops tcx did
  let t := tcx.lookup_item_type did
  match mapE (fun mdid =>
      let item := match ops.cleanMethod (tcx.method mdid) with
        | .Provided item => item
        | .Required item => item
      match item with
      | .mk source name attrs inner visibility def_id =>
        match inner with
        | .TyMethodItem tm =>
          .ok (Item.mk source name attrs
                (.MethodItem ⟨tm.fn_style, tm.decl, tm.self_, tm.generics⟩)
                visibility def_id)
        | _ => .error Fatal.notATymethod) (tcx.get_impl_methods did) with
  | .error e => .error e
  | .ok methods =>
    match (match associated_trait with
          | none => Except.ok none
          | some tr =>
            match ops.cleanTraitRef tr with
            | .TraitBound ty => Except.ok (some ty)
            | .RegionBound => Except.error Fatal.unreachableRegionBound) with
    | .error e => .error e
    | .ok trait_ =>
      .ok (Item.mk Span.empty none attrs
            (.ImplItem ⟨ops.detect_derived attrs, trait_, ops.cleanTy t.ty,
                        ops.cleanGenerics t.generics, methods⟩)
            (some .Inherited) did)

/-- Model of `build_impls` (inline.rs lines 195-208): look up the inherent
implementation ids of `did` (absent means none) and build each in index
order. -/
def build_impls (ops : CleanOps) (tcx : Tcx) (did : DefId) :
    Except Fatal (List Item) :=
  match tcx.inherent_impls did with
  | none => .ok []
  | some l => mapE (fun idid => build_impl ops tcx idid) l

/-- Factoring of the shared tail of `try_inline_def` (inline.rs lines 87-96):
fetch the fully qualified path of the definition, and push onto `ret` the
final normalized item whose name is the last path segment (its `unwrap`
aborts on an empty path), with the loaded attributes, public visibility,
empty span and the definition's own id. -/
def finish_item (ops : CleanOps) (tcx : Tcx) (did : DefId) (ret : List Item)
    (inner : ItemEnum) (cache : PathCache) :
    Except Fatal (Option (List Item) × PathCache) :=
  let fqn := tcx.get_item_path did
  match fqn.getLast? with
  | none => .error .unwrapFailed
  | some last =>
    .ok (some (ret ++ [Item.mk Span.empty (some last) (load_attrs ops tcx did)
                        inner (some .Public) did]),
         cache)

/-- One iteration of the child walk of `build_module` (the body of the
`each_child_of_item` callback, inline.rs lines 261-272), hoisted to a named
function: a definition child is reconstructed via `inline_def` and its items
appended, an implementation child is built directly, and a bare field child
aborts with `fail!("unimplemented field")`; a previous abort propagates. -/
def build_module_step (ops : CleanOps) (tcx : Tcx)
    (inline_def : Def → PathCache → Except Fatal (Option (List Item) × PathCache))
    (acc : Except Fatal (List Item × PathCache)) (child : DlItem) :
    Except Fatal (List Item × PathCache) :=
  match acc with
  | .error e => .error e
  | .ok (items, cache) =>
    match child with
    | .DlDef d =>
      match inline_def d cache with
      | .error e => .error e
      | .ok (some i, cache) => .ok (items ++ i, cache)
      | .ok (none, cache) => .ok (items, cache)
    | .DlImpl idid =>
      match build_impl ops tcx idid with
      | .error e => .error e
      | .ok it => .ok (items ++ [it], cache)
    | .DlField => .error .unimplementedField

/-- Model of `build_module` (inline.rs lines 255-278), parameterized by the
recursive reconstruction function for definition children: walk the module's
direct children in metadata order accumulating items via `build_module_step`,
and produce a non-crate-root module of the collected items. -/
def build_module (ops : CleanOps) (tcx : Tcx)
    (inline_def : Def → PathCache → Except Fatal (Option (List Item) × PathCache))
    (did : DefId) (cache : PathCache) : Except Fatal (Module × PathCache) :=
  match (tcx.each_child_of_item did).foldl (build_module_step ops tcx inline_def)
      (.ok ([], cache)) with
  | .error e => .error e
  | .ok (items, cache) => .ok (⟨items, false⟩, cache)

/-- Model of `try_inline_def` (inline.rs lines 54-97): dispatch on the
definition kind; record the external path and build the matching payload;
struct and type definitions first collect their inherent impls into `ret`; a
variant returns success with no items; any other kind is not inlinable. The
fuel argument bounds the metadata recursion depth of module reconstruction,
which the source leaves unguarded. -/
def try_inline_def (ops : CleanOps) (cx : DocContext) (tcx : Tcx) :
    Nat → Def → PathCache → Except Fatal (Option (List Item) × PathCache)
  | 0, _, _ => .error .fuelExhausted
  | fuel + 1, df, cache =>
    let did := def_id_of_def df
    match df with
    | .DefTrait d =>
      let cache := record_extern_fqn cx d .TypeTrait cache
      finish_item ops tcx did [] (.TraitItem (build_external_trait ops tcx d)) cache
    | .DefFn d style =>
      let cache := record_extern_fqn cx d .TypeFunction cache
      match build_external_function ops tcx d style with
      | .error e => .error e
      | .ok f => finish_item ops tcx did [] (.FunctionItem f) cache
    | .DefStruct d =>
      let cache := record_extern_fqn cx d .TypeStruct cache
      match build_impls ops tcx d with
      | .error e => .error e
      | .ok impls =>
        finish_item ops tcx did impls (.StructItem (build_struct ops tcx d)) cache
    | .DefTy d =>
      let cache := record_extern_fqn cx d .TypeEnum cache
      match build_impls ops tcx d with
      | .error e => .error e
      | .ok impls => finish_item ops tcx did impls (build_type ops tcx d) cache
    | .DefVariant _ _ => .ok (some [], cache)
    | .DefMod d =>
      let cache := record_extern_fqn cx d .TypeModule cache
      match build_module ops tcx (try_inline_def ops cx tcx fuel) d cache with
      | .error e => .error e
      | .ok (m, cache) => finish_item ops tcx did [] (.ModuleItem m) cache
    | _ => .ok (none, cache)

/-- Model of `try_inline` (inline.rs lines 39-52): return nothing when the
documentation context holds no type information, when the node id is absent
from the definition map, or when the definition's owning id is local;
otherwise delegate to `try_inline_def`. -/
def try_inline (ops : CleanOps) (cx : DocContext) (id : NodeId) (fuel : Nat)
    (cache : PathCache) : Except Fatal (Option (List Item) × PathCache) :=
  match cx.maybe_typed with
  | .NotTyped => .ok (none, cache)
  | .Typed tcx =>
    match tcx.def_map id with
    | none => .ok (none, cache)
    | some df =>
      let did := def_id_of_def df
      if is_local did then .ok (none, cache)
      else try_inline_def ops cx tcx fuel df cache

/-! Concrete instances used to exhibit witnesses and counterexamples. -/

/-- Concrete black-box Clean instance: every cleaned method is a provided
signature-shaped method, every other cleaned value is a fixed constant. -/
def O : CleanOps where
  cleanGenerics := fun _ => ⟨0⟩
  cleanFnSig := fun _ _ => ⟨0⟩
  cleanTy := fun _ => ⟨0⟩
  cleanField := fun _ => Item.mk Span.empty none [] (.OtherItem 0) none ⟨0, 0⟩
  cleanMethod := fun _ =>
    .Provided (Item.mk Span.empty none [] (.TyMethodItem ⟨.NormalFn, ⟨0⟩, ⟨0⟩, ⟨0⟩⟩)
      none ⟨0, 0⟩)
  cleanVariants := fun _ => []
  cleanAttr := fun _ => ⟨0⟩
  cleanTraitRef := fun _ => .TraitBound ⟨0⟩
  detect_derived := fun _ => false

/-- Concrete metadata store: node 1 is an external function, node 2 an
external module containing that function, node 3 an external static (an
unsupported kind), node 4 a local function, node 5 an external struct with
two inherent impls, node 6 an external variant, node 7 an external enum. -/
def TCX : Tcx where
  def_map := fun id =>
    if id = 1 then some (.DefFn ⟨1, 11⟩ .NormalFn)
    else if id = 2 then some (.DefMod ⟨1, 10⟩)
    else if id = 3 then some (.DefStatic ⟨1, 13⟩ false)
    else if id = 4 then some (.DefFn ⟨0, 14⟩ .NormalFn)
    else if id = 5 then some (.DefStruct ⟨1, 15⟩)
    else if id = 6 then some (.DefVariant ⟨1, 16⟩ ⟨1, 17⟩)
    else if id = 7 then some (.DefTy ⟨1, 18⟩)
    else none
  get_item_path := fun d => ["p", "n" ++ toString d.node]
  lookup_item_type := fun d =>
    if d = ⟨1, 11⟩ then ⟨⟨.ty_bare_fn ⟨⟨7⟩⟩⟩, ⟨1⟩⟩
    else if d = ⟨1, 18⟩ then ⟨⟨.ty_enum ⟨1, 19⟩ 0⟩, ⟨2⟩⟩
    else ⟨⟨.ty_other 0⟩, ⟨0⟩⟩
  lookup_trait_def := fun _ => ⟨⟨0⟩⟩
  trait_methods := fun _ => []
  lookup_struct_fields := fun d =>
    if d = ⟨1, 15⟩ then [⟨"x", ⟨1, 30⟩⟩] else []
  enum_variants := fun _ => []
  inherent_impls := fun d =>
    if d = ⟨1, 15⟩ then some [⟨1, 21⟩, ⟨1, 22⟩] else none
  get_item_attrs := fun _ => []
  get_impl_trait := fun _ => none
  get_impl_methods := fun _ => []
  method := fun _ => ⟨0⟩
  each_child_of_item := fun d =>
    if d = ⟨1, 10⟩ then [.DlDef (.DefFn ⟨1, 11⟩ .NormalFn)] else []

/-- Concrete documentation context holding full type information for `TCX`. -/
def CX : DocContext := ⟨.Typed TCX⟩

/-! Claim C4. -/

/-- Spec-side restatement of the shape-classification rule, transcribed from
the specification's words and evaluated in the specification's order: zero
fields give unit-like; exactly one field named by the sentinel gives newtype;
a sentinel-named first field among two or more gives tuple-like; every other
field list gives the named/record shape. -/
def classifyShapeSpec (fields : List Field) : StructType :=
  if fields.length = 0 then .Unit
  else if fields.length = 1 ∧ headIsSentinel fields then .Newtype
  else if 2 ≤ fields.length ∧ headIsSentinel fields then .Tuple
  else .Plain
where
  headIsSentinel : List Field → Bool
    | [] => false
    | f :: _ => f.name == unnamed_field_name

/-! Claim C9. -/

/-- Spec-side marking step: an attribute is marked as a sugared doc comment
exactly when it is literally named doc and carries a string value; every
other attribute passes through unchanged. -/
def markSugaredDoc (a : RawAttr) : RawAttr :=
  if a.name = "doc" ∧ a.value_str.isSome then { a with is_sugared_doc := true }
  else a

/-! Claim C6. -/

/-- Predicate singling out the supported non-Variant definition kinds: those
whose reconstruction assembles and pushes a final primary item. -/
def supportedNonVariant : Def → Bool
  | .DefTrait _ => true
  | .DefFn _ _ => true
  | .DefStruct _ => true
  | .DefTy _ => true
  | .DefMod _ => true
  | .DefStatic _ _ => false
  | .DefVariant _ _ => false
  | .DefTyParam _ _ => false

/-- Concrete expected primary item for the external function at node 11. -/
def fnItem11 : Item :=
  Item.mk Span.empty (some "n11") [] (.FunctionItem ⟨⟨0⟩, ⟨0⟩, .NormalFn⟩)
    (some .Public) ⟨1, 11⟩

/-! Infrastructure for reasoning about the cache effect of a reconstruction
run: every function of the module only ever writes the path cache through
`record_extern_fqn`, with values computed from the immutable metadata alone,
so the cache effect of any run is the application of a fixed insert list. -/

/-- A single cache write: key and stored value. -/
abbrev CacheWrite := DefId × (List String × TypeKind)

/-- Insertion of one write into the cache. -/
def insertPC (k : DefId) (v : List String × TypeKind) (c : PathCache) : PathCache :=
  fun d => if d = k then some v else c d

/-- Application of a list of writes to the cache, oldest first. -/
def applyInserts (L : List CacheWrite) (c : PathCache) : PathCache :=
  L.foldl (fun c p => insertPC p.1 p.2 c) c

/-- Last value written for key `d` in a write list, if any. -/
def lastWrite (d : DefId) (L : List CacheWrite) :
    Option (List String × TypeKind) :=
  L.foldl (fun acc p => if d = p.1 then some p.2 else acc) none

/-- The write list of one `record_extern_fqn` call. -/
def recordInserts (cx : DocContext) (did : DefId) (kind : TypeKind) :
    List CacheWrite :=
  match cx.maybe_typed with
  | .Typed tcx => [(did, (tcx.get_item_path did, kind))]
  | .NotTyped => []

/-- Normal form of a run's outcome: a cache-independent result paired with
the application of a fixed write list to the incoming cache. -/
def cacheShape (res : Except Fatal (Option (List Item)))
    (L : List CacheWrite) (c : PathCache) :
    Except Fatal (Option (List Item) × PathCache) :=
  match res with
  | .error e => .error e
  | .ok r => .ok (r, applyInserts L c)

/-- Concrete built impl item for the inherent impl at node 21. -/
def implItem21 : Item :=
  Item.mk Span.empty none [] (.ImplItem ⟨false, none, ⟨0⟩, ⟨0⟩, []⟩)
    (some .Inherited) ⟨1, 21⟩

/-- Concrete built impl item for the inherent impl at node 22. -/
def implItem22 : Item :=
  Item.mk Span.empty none [] (.ImplItem ⟨false, none, ⟨0⟩, ⟨0⟩, []⟩)
    (some .Inherited) ⟨1, 22⟩

/-- Concrete primary item for the external struct at node 15. -/
def structItem15 : Item :=
  Item.mk Span.empty (some "n15") []
    (.StructItem ⟨.Plain, ⟨0⟩,
      [Item.mk Span.empty none [] (.OtherItem 0) none ⟨0, 0⟩], false⟩)
    (some .Public) ⟨1, 15⟩

/-- Concrete path cache after resolving the external module at node 2. -/
def cacheAfterMod : PathCache :=
  record_extern_fqn CX ⟨1, 11⟩ .TypeFunction
    (record_extern_fqn CX ⟨1, 10⟩ .TypeModule PathCache.empty)

/-- Concrete module item produced for the external module at node 10. -/
def modItem10 : Item :=
  Item.mk Span.empty (some "n10") [] (.ModuleItem ⟨[fnItem11], false⟩)
    (some .Public) ⟨1, 10⟩

/-! Claim C1. -/

/-- Predicate singling out the definition kinds `try_inline_def` supports at
all (a variant included: it succeeds with no items). -/
def supportedKind : Def → Bool
  | .DefTrait _ => true
  | .DefFn _ _ => true
  | .DefStruct _ => true
  | .DefTy _ => true
  | .DefVariant _ _ => true
  | .DefMod _ => true
  | .DefStatic _ _ => false
  | .DefTyParam _ _ => false

/-! Helper lemmas about the effectful map and the pushed final item. -/

theorem mapE_ok_length {α β : Type} (f : α → Except Fatal β) :
    ∀ (l : List α) (out : List β), mapE f l = .ok out → out.length = l.length := by
  intro l
  induction l with
  | nil => intro out h; cases h; rfl
  | cons a l ih =>
    intro out h
    unfold mapE at h
    cases hf : f a with
    | error e => rw [hf] at h; cases h
    | ok b =>
      rw [hf] at h
      cases hl : mapE f l with
      | error e => rw [hl] at h; cases h
      | ok bs =>
        rw [hl] at h
        cases h
        simp [ih bs hl]

theorem mapE_ok_get {α β : Type} (f : α → Except Fatal β) :
    ∀ (l : List α) (out : List β), mapE f l = .ok out →
      ∀ (i : Nat) (hi : i < l.length) (hi' : i < out.length),
        f (l.get ⟨i, hi⟩) = .ok (out.get ⟨i, hi'⟩) := by
  intro l
  induction l with
  | nil => intro out _ i hi; exact absurd hi (by simp)
  | cons a l ih =>
    intro out h i hi hi'
    unfold mapE at h
    cases hf : f a with
    | error e => rw [hf] at h; cases h
    | ok b =>
      rw [hf] at h
      cases hl : mapE f l with
      | error e => rw [hl] at h; cases h
      | ok bs =>
        rw [hl] at h
        cases h
        match i with
        | 0 => simpa using hf
        | j + 1 =>
          simp only [List.get_cons_succ]
          exact ih bs hl j (by simpa using hi) (by simpa using hi')

theorem mapE_ok_mem {α β : Type} (f : α → Except Fatal β) :
    ∀ (l : List α) (out : List β), mapE f l = .ok out →
      ∀ b ∈ out, ∃ a ∈ l, f a = .ok b := by
  intro l
  induction l with
  | nil => intro out h b hb; cases h; cases hb
  | cons a l ih =>
    intro out h b hb
    unfold mapE at h
    cases hf : f a with
    | error e => rw [hf] at h; cases h
    | ok b0 =>
      rw [hf] at h
      cases hl : mapE f l with
      | error e => rw [hl] at h; cases h
      | ok bs =>
        rw [hl] at h
        cases h
        rcases List.mem_cons.1 hb with hb0 | hbs
        · exact ⟨a, List.mem_cons_self a l, hb0 ▸ hf⟩
        · obtain ⟨a', ha', hfa'⟩ := ih bs hl b hbs
          exact ⟨a', List.mem_cons_of_mem a ha', hfa'⟩

theorem finish_item_ok (ops : CleanOps) (tcx : Tcx) (did : DefId)
    (ret : List Item) (inner : ItemEnum) (cache : PathCache)
    (items : List Item) (cache' : PathCache)
    (h : finish_item ops tcx did ret inner cache = .ok (some items, cache')) :
    ∃ lastSeg, (tcx.get_item_path did).getLast? = some lastSeg ∧
      cache' = cache ∧
      items = ret ++ [Item.mk Span.empty (some lastSeg) (load_attrs ops tcx did)
                       inner (some .Public) did] := by
  simp only [finish_item] at h
  cases hl : (tcx.get_item_path did).getLast? with
  | none => rw [hl] at h; simp at h
  | some lastSeg =>
    rw [hl] at h
    cases h
    exact ⟨lastSeg, rfl, rfl, rfl⟩

theorem finish_item_never_none (ops : CleanOps) (tcx : Tcx) (did : DefId)
    (ret : List Item) (inner : ItemEnum) (cache : PathCache)
    (cache' : PathCache) :
    finish_item ops tcx did ret inner cache ≠ .ok (none, cache') := by
  simp only [finish_item]
  cases (tcx.get_item_path did).getLast? <;> simp

/-! Claim C2. -/

/-- Claim C2: reconstructing a Variant definition returns success carrying an
empty item list, which is a different outcome from the "no result" returned
for an unsupported definition kind (here a static); in neither case does the
variant yield any item. -/
theorem variant_inlines_to_empty (ops : CleanOps) (cx : DocContext) (tcx : Tcx)
    (fuel : Nat) (edid vdid : DefId) (cache : PathCache) :
    try_inline_def ops cx tcx (fuel + 1) (.DefVariant edid vdid) cache
      = .ok (some [], cache) ∧
    (∀ (sdid : DefId) (m : Bool),
      try_inline_def ops cx tcx (fuel + 1) (.DefStatic sdid m) cache
        = .ok (none, cache)) ∧
    (some ([] : List Item) ≠ (none : Option (List Item))) := by
  refine ⟨rfl, fun sdid m => rfl, by simp⟩

/-- Claim C4: the record-type builder classifies the struct shape exactly by
the specification's ordered rule, and its fields-stripped flag is false. -/
theorem build_struct_shape (ops : CleanOps) (tcx : Tcx) (did : DefId) :
    (build_struct ops tcx did).struct_type
      = classifyShapeSpec (tcx.lookup_struct_fields did) ∧
    (build_struct ops tcx did).fields_stripped = false := by
  constructor
  · show (build_struct ops tcx did).struct_type = _
    unfold build_struct
    cases hf : tcx.lookup_struct_fields did with
    | nil => simp [Struct.struct_type, classifyShapeSpec]
    | cons f l =>
      cases l with
      | nil =>
        by_cases hn : f.name = unnamed_field_name <;>
          simp [Struct.struct_type, classifyShapeSpec, classifyShapeSpec.headIsSentinel, hn]
      | cons g l' =>
        by_cases hn : f.name = unnamed_field_name <;>
          simp [Struct.struct_type, classifyShapeSpec, classifyShapeSpec.headIsSentinel, hn]
  · unfold build_struct
    cases tcx.lookup_struct_fields did with
    | nil => rfl
    | cons f l => cases l <;> rfl

/-! Claim C7. -/

/-- Claim C7: for a sum-type-or-alias definition, the builder inspects the
resolved type's structural tag: a sum-type tag yields a sum-type payload with
the cleaned enumerated variants of the tagged id and variants not stripped;
any other tag yields a type-alias payload of the cleaned resolved type and
generics. -/
theorem build_type_dispatch (ops : CleanOps) (tcx : Tcx) (did : DefId) :
    (∀ (edid : DefId) (s : Nat),
      (tcx.lookup_item_type did).ty.sty = .ty_enum edid s →
      build_type ops tcx did =
        .EnumItem ⟨ops.cleanGenerics (tcx.lookup_item_type did).generics, false,
                   ops.cleanVariants (tcx.enum_variants edid)⟩) ∧
    ((∀ (edid : DefId) (s : Nat),
        (tcx.lookup_item_type did).ty.sty ≠ .ty_enum edid s) →
      build_type ops tcx did =
        .TypedefItem ⟨ops.cleanTy (tcx.lookup_item_type did).ty,
                      ops.cleanGenerics (tcx.lookup_item_type did).generics⟩) := by
  constructor
  · intro edid s h
    simp only [build_type]
    rw [h]
  · intro h
    simp only [build_type]

/-- Witness for claim C7 at concrete inputs: an enum-tagged definition yields
the enum payload, a function-tagged one the typedef payload. -/
theorem build_type_dispatch_witness :
    build_type O TCX ⟨1, 18⟩ = .EnumItem ⟨⟨0⟩, false, []⟩ ∧
    build_type O TCX ⟨1, 11⟩ = .TypedefItem ⟨⟨0⟩, ⟨0⟩⟩ := by
  constructor
  · exact (build_type_dispatch O TCX ⟨1, 18⟩).1 ⟨1, 19⟩ 0 rfl
  · exact (build_type_dispatch O TCX ⟨1, 11⟩).2 (fun edid s h => Sty.noConfusion h)

/-! Claim C8. -/

/-- Claim C8: the function builder aborts fatally exactly when the resolved
type is not structurally a bare function signature; when it is one, the
builder totally produces the cleaned signature, generics and calling style. -/
theorem build_function_fatal_iff (ops : CleanOps) (tcx : Tcx) (did : DefId)
    (style : FnStyle) :
    (build_external_function ops tcx did style = .error .badFunction ↔
      ∀ f, (tcx.lookup_item_type did).ty.sty ≠ .ty_bare_fn f) ∧
    (∀ f, (tcx.lookup_item_type did).ty.sty = .ty_bare_fn f →
      build_external_function ops tcx did style =
        .ok ⟨ops.cleanFnSig did f.sig,
             ops.cleanGenerics (tcx.lookup_item_type did).generics, style⟩) := by
  constructor
  · constructor
    · intro h f hf
      simp only [build_external_function] at h
      rw [hf] at h
      simp at h
    · intro h
      simp only [build_external_function]
  · intro f hf
    simp only [build_external_function]
    rw [hf]

/-- Witness for claim C8 at concrete inputs: a static's non-function resolved
type aborts, a bare-function resolved type builds totally. -/
theorem build_function_fatal_iff_witness :
    build_external_function O TCX ⟨1, 13⟩ .NormalFn = .error .badFunction ∧
    build_external_function O TCX ⟨1, 11⟩ .NormalFn = .ok ⟨⟨0⟩, ⟨0⟩, .NormalFn⟩ := by
  constructor
  · exact (build_function_fatal_iff O TCX ⟨1, 13⟩ .NormalFn).1.mpr
      (fun f h => Sty.noConfusion h)
  · exact (build_function_fatal_iff O TCX ⟨1, 11⟩ .NormalFn).2 ⟨⟨7⟩⟩ rfl

/-- Claim C9: the attribute loader returns, in original order, the cleaning
of every fetched attribute, marking an attribute as sugared doc exactly when
it is literally named doc and carries a string value. -/
theorem load_attrs_marks_doc (ops : CleanOps) (tcx : Tcx) (did : DefId) :
    load_attrs ops tcx did
      = (tcx.get_item_attrs did).map (fun a => ops.cleanAttr (markSugaredDoc a)) := by
  unfold load_attrs
  rw [List.nil_append]
  apply List.map_congr_left
  intro a _
  by_cases h : a.name = "doc" ∧ a.value_str.isSome
  · simp only [markSugaredDoc, if_pos h]
    rcases h with ⟨h1, h2⟩
    simp [h1, h2]
  · simp only [markSugaredDoc, if_neg h]
    rcases Decidable.not_and_iff_or_not.1 h with h1 | h2
    · simp [h1]
    · simp at h2
      simp [h2]

/-- Claim C6: for every supported non-Variant definition kind, the assembled
primary item (the last of the produced items) has the last segment of the
metadata path as its name, the loaded attributes, public visibility, an
empty source span, and the definition's own id as owning id. -/
theorem primary_item_shape (ops : CleanOps) (cx : DocContext) (tcx : Tcx)
    (df : Def) (fuel : Nat) (cache : PathCache) (items : List Item)
    (cache' : PathCache) (hk : supportedNonVariant df = true)
    (h : try_inline_def ops cx tcx (fuel + 1) df cache = .ok (some items, cache')) :
    ∃ inner lastSeg,
      (tcx.get_item_path (def_id_of_def df)).getLast? = some lastSeg ∧
      items.getLast? = some (Item.mk Span.empty (some lastSeg)
        (load_attrs ops tcx (def_id_of_def df)) inner (some .Public)
        (def_id_of_def df)) := by
  cases df with
  | DefTrait d =>
    simp only [try_inline_def] at h
    obtain ⟨ls, hls, _, hit⟩ := finish_item_ok _ _ _ _ _ _ _ _ h
    exact ⟨_, ls, hls, by rw [hit]; exact List.getLast?_concat _⟩
  | DefFn d style =>
    simp only [try_inline_def] at h
    cases hb : build_external_function ops tcx d style with
    | error e => rw [hb] at h; simp at h
    | ok f =>
      rw [hb] at h
      obtain ⟨ls, hls, _, hit⟩ := finish_item_ok _ _ _ _ _ _ _ _ h
      exact ⟨_, ls, hls, by rw [hit]; exact List.getLast?_concat _⟩
  | DefStruct d =>
    simp only [try_inline_def] at h
    cases hb : build_impls ops tcx d with
    | error e => rw [hb] at h; simp at h
    | ok impls =>
      rw [hb] at h
      obtain ⟨ls, hls, _, hit⟩ := finish_item_ok _ _ _ _ _ _ _ _ h
      exact ⟨_, ls, hls, by rw [hit]; exact List.getLast?_concat _⟩
  | DefTy d =>
    simp only [try_inline_def] at h
    cases hb : build_impls ops tcx d with
    | error e => rw [hb] at h; simp at h
    | ok impls =>
      rw [hb] at h
      obtain ⟨ls, hls, _, hit⟩ := finish_item_ok _ _ _ _ _ _ _ _ h
      exact ⟨_, ls, hls, by rw [hit]; exact List.getLast?_concat _⟩
  | DefMod d =>
    simp only [try_inline_def] at h
    cases hb : build_module ops tcx (try_inline_def ops cx tcx fuel) d
        (record_extern_fqn cx d .TypeModule cache) with
    | error e => rw [hb] at h; simp at h
    | ok p =>
      rw [hb] at h
      obtain ⟨m, cache₂⟩ := p
      obtain ⟨ls, hls, _, hit⟩ := finish_item_ok _ _ _ _ _ _ _ _ h
      exact ⟨_, ls, hls, by rw [hit]; exact List.getLast?_concat _⟩
  | DefStatic d m => simp [supportedNonVariant] at hk
  | DefVariant ed vd => simp [supportedNonVariant] at hk
  | DefTyParam d i => simp [supportedNonVariant] at hk

/-- Witness for claim C6 at the concrete external function. -/
theorem primary_item_shape_witness :
    ∃ inner lastSeg,
      (TCX.get_item_path ⟨1, 11⟩).getLast? = some lastSeg ∧
      [fnItem11].getLast? = some (Item.mk Span.empty (some lastSeg)
        (load_attrs O TCX ⟨1, 11⟩) inner (some .Public) ⟨1, 11⟩) :=
  primary_item_shape O CX TCX (.DefFn ⟨1, 11⟩ .NormalFn) 0 PathCache.empty
    [fnItem11] (record_extern_fqn CX ⟨1, 11⟩ .TypeFunction PathCache.empty)
    rfl rfl

/-! Claim C10. -/

theorem build_impl_ok_fields (ops : CleanOps) (tcx : Tcx) (did : DefId)
    (it : Item) (h : build_impl ops tcx did = .ok it) :
    it.name = none ∧ it.visibility = some .Inherited ∧
    it.source = Span.empty ∧ it.def_id = did := by
  simp only [build_impl] at h
  split at h
  · simp at h
  · split at h
    · simp at h
    · cases h; exact ⟨rfl, rfl, rfl, rfl⟩

theorem build_impls_ok_mem (ops : CleanOps) (tcx : Tcx) (did : DefId)
    (impls : List Item) (h : build_impls ops tcx did = .ok impls) :
    ∀ it ∈ impls, ∃ idid, build_impl ops tcx idid = .ok it := by
  simp only [build_impls] at h
  split at h
  · cases h; intro it hit; cases hit
  · intro it hit
    obtain ⟨a, _, hfa⟩ := mapE_ok_mem _ _ _ h it hit
    exact ⟨a, hfa⟩

/-- Claim C10: every item produced by the implementation builder has no name,
inherited (not public) visibility, an empty source span and the impl block's
own id as owning id; consequently, in the item list reconstructed for a
record or sum type, every item before the last is nameless and inherited,
and only the final primary item is public and named. -/
theorem impl_item_shape :
    (∀ (ops : CleanOps) (tcx : Tcx) (did : DefId) (it : Item),
      build_impl ops tcx did = .ok it →
      it.name = none ∧ it.visibility = some .Inherited ∧
      it.source = Span.empty ∧ it.def_id = did) ∧
    (∀ (ops : CleanOps) (cx : DocContext) (tcx : Tcx) (fuel : Nat) (d : DefId)
      (cache : PathCache) (items : List Item) (cache' : PathCache),
      (try_inline_def ops cx tcx (fuel + 1) (.DefStruct d) cache
          = .ok (some items, cache') ∨
       try_inline_def ops cx tcx (fuel + 1) (.DefTy d) cache
          = .ok (some items, cache')) →
      (∀ it ∈ items.dropLast, it.name = none ∧ it.visibility = some .Inherited) ∧
      ∃ lastIt, items.getLast? = some lastIt ∧
        lastIt.visibility = some .Public ∧ lastIt.name.isSome = true) := by
  constructor
  · exact build_impl_ok_fields
  · intro ops cx tcx fuel d cache items cache' h
    have main : ∀ impls (prim : Item), build_impls ops tcx d = .ok impls →
        prim.visibility = some .Public → prim.name.isSome = true →
        items = impls ++ [prim] →
        (∀ it ∈ items.dropLast,
          it.name = none ∧ it.visibility = some .Inherited) ∧
        ∃ lastIt, items.getLast? = some lastIt ∧
          lastIt.visibility = some .Public ∧ lastIt.name.isSome = true := by
      intro impls prim hb hv hn hit
      constructor
      · intro it hmem
        rw [hit, List.dropLast_concat] at hmem
        obtain ⟨idid, hidid⟩ := build_impls_ok_mem ops tcx d impls hb it hmem
        obtain ⟨h1, h2, _, _⟩ := build_impl_ok_fields ops tcx idid it hidid
        exact ⟨h1, h2⟩
      · exact ⟨prim, by rw [hit]; exact List.getLast?_concat _, hv, hn⟩
    rcases h with h | h
    · simp only [try_inline_def] at h
      cases hb : build_impls ops tcx d with
      | error e => rw [hb] at h; simp at h
      | ok impls =>
        rw [hb] at h
        obtain ⟨ls, _, _, hit⟩ := finish_item_ok _ _ _ _ _ _ _ _ h
        refine main impls _ hb ?_ ?_ hit <;> rfl
    · simp only [try_inline_def] at h
      cases hb : build_impls ops tcx d with
      | error e => rw [hb] at h; simp at h
      | ok impls =>
        rw [hb] at h
        obtain ⟨ls, _, _, hit⟩ := finish_item_ok _ _ _ _ _ _ _ _ h
        refine main impls _ hb ?_ ?_ hit <;> rfl

theorem lastWrite_fold_acc (d : DefId) :
    ∀ (L : List CacheWrite) (acc : Option (List String × TypeKind)),
      L.foldl (fun acc p => if d = p.1 then some p.2 else acc) acc
        = match lastWrite d L with
          | some v => some v
          | none => acc := by
  intro L
  induction L with
  | nil => intro acc; rfl
  | cons p L ih =>
    intro acc
    show List.foldl _ (if d = p.1 then some p.2 else acc) L = _
    rw [ih]
    have hpl : lastWrite d (p :: L)
        = List.foldl (fun acc p => if d = p.1 then some p.2 else acc)
            (if d = p.1 then some p.2 else none) L := rfl
    rw [hpl, ih]
    cases lastWrite d L with
    | some v => rfl
    | none => by_cases h : d = p.1 <;> simp [h]

theorem applyInserts_lookup (L : List CacheWrite) (c : PathCache) (d : DefId) :
    applyInserts L c d
      = match lastWrite d L with
        | some v => some v
        | none => c d := by
  induction L generalizing c with
  | nil => rfl
  | cons p L ih =>
    show applyInserts L (insertPC p.1 p.2 c) d = _
    rw [ih]
    have hpl : lastWrite d (p :: L)
        = List.foldl (fun acc p => if d = p.1 then some p.2 else acc)
            (if d = p.1 then some p.2 else none) L := rfl
    rw [hpl, lastWrite_fold_acc]
    cases lastWrite d L with
    | some v => rfl
    | none =>
      show insertPC p.1 p.2 c d = _
      unfold insertPC
      by_cases h : d = p.1 <;> simp [h]

theorem applyInserts_append (L₁ L₂ : List CacheWrite) (c : PathCache) :
    applyInserts (L₁ ++ L₂) c = applyInserts L₂ (applyInserts L₁ c) := by
  simp [applyInserts, List.foldl_append]

theorem applyInserts_idem (L : List CacheWrite) (c : PathCache) :
    applyInserts L (applyInserts L c) = applyInserts L c := by
  funext d
  rw [applyInserts_lookup, applyInserts_lookup]
  cases lastWrite d L <;> rfl

theorem record_eq_applyInserts (cx : DocContext) (did : DefId) (kind : TypeKind)
    (c : PathCache) :
    record_extern_fqn cx did kind c = applyInserts (recordInserts cx did kind) c := by
  obtain ⟨mt⟩ := cx
  cases mt <;> rfl

theorem foldl_step_error (ops : CleanOps) (tcx : Tcx)
    (f : Def → PathCache → Except Fatal (Option (List Item) × PathCache)) :
    ∀ (l : List DlItem) (e : Fatal),
      l.foldl (build_module_step ops tcx f) (.error e) = .error e := by
  intro l
  induction l with
  | nil => intro e; rfl
  | cons child l ih =>
    intro e
    rw [List.foldl_cons]
    rw [show build_module_step ops tcx f (.error e) child = .error e from rfl]
    exact ih e

theorem children_fold_decomp (ops : CleanOps) (tcx : Tcx)
    (f : Def → PathCache → Except Fatal (Option (List Item) × PathCache))
    (hf : ∀ d, ∃ res L, ∀ c, f d c = cacheShape res L c) :
    ∀ l : List DlItem, ∃ (out : Except Fatal (List Item)) (L : List CacheWrite),
      ∀ (items : List Item) (c : PathCache),
        l.foldl (build_module_step ops tcx f) (.ok (items, c))
          = match out with
            | .error e => .error e
            | .ok extra => .ok (items ++ extra, applyInserts L c) := by
  intro l
  induction l with
  | nil => exact ⟨.ok [], [], fun items c => by simp [applyInserts]⟩
  | cons child l ih =>
    obtain ⟨out₂, L₂, h₂⟩ := ih
    cases child with
    | DlDef d =>
      obtain ⟨res, L₁, hres⟩ := hf d
      cases res with
      | error e =>
        refine ⟨.error e, [], fun items c => ?_⟩
        have hs : build_module_step ops tcx f (.ok (items, c)) (.DlDef d)
            = .error e := by
          simp only [build_module_step]
          rw [hres c]
          rfl
        rw [List.foldl_cons, hs, foldl_step_error]
      | ok r =>
        cases r with
        | none =>
          cases out₂ with
          | error e2 =>
            refine ⟨.error e2, L₁ ++ L₂, fun items c => ?_⟩
            have hs : build_module_step ops tcx f (.ok (items, c)) (.DlDef d)
                = .ok (items, applyInserts L₁ c) := by
              simp only [build_module_step]
              rw [hres c]
              rfl
            rw [List.foldl_cons, hs, h₂ items (applyInserts L₁ c)]
          | ok extra =>
            refine ⟨.ok extra, L₁ ++ L₂, fun items c => ?_⟩
            have hs : build_module_step ops tcx f (.ok (items, c)) (.DlDef d)
                = .ok (items, applyInserts L₁ c) := by
              simp only [build_module_step]
              rw [hres c]
              rfl
            rw [List.foldl_cons, hs, h₂ items (applyInserts L₁ c),
              applyInserts_append]
        | some i =>
          cases out₂ with
          | error e2 =>
            refine ⟨.error e2, L₁ ++ L₂, fun items c => ?_⟩
            have hs : build_module_step ops tcx f (.ok (items, c)) (.DlDef d)
                = .ok (items ++ i, applyInserts L₁ c) := by
              simp only [build_module_step]
              rw [hres c]
              rfl
            rw [List.foldl_cons, hs, h₂ (items ++ i) (applyInserts L₁ c)]
          | ok extra =>
            refine ⟨.ok (i ++ extra), L₁ ++ L₂, fun items c => ?_⟩
            have hs : build_module_step ops tcx f (.ok (items, c)) (.DlDef d)
                = .ok (items ++ i, applyInserts L₁ c) := by
              simp only [build_module_step]
              rw [hres c]
              rfl
            rw [List.foldl_cons, hs, h₂ (items ++ i) (applyInserts L₁ c),
              applyInserts_append]
            simp [List.append_assoc]
    | DlImpl idid =>
      cases hb : build_impl ops tcx idid with
      | error e =>
        refine ⟨.error e, [], fun items c => ?_⟩
        have hs : build_module_step ops tcx f (.ok (items, c)) (.DlImpl idid)
            = .error e := by
          simp only [build_module_step]
          rw [hb]
        rw [List.foldl_cons, hs, foldl_step_error]
      | ok it =>
        cases out₂ with
        | error e2 =>
          refine ⟨.error e2, L₂, fun items c => ?_⟩
          have hs : build_module_step ops tcx f (.ok (items, c)) (.DlImpl idid)
              = .ok (items ++ [it], c) := by
            simp only [build_module_step]
            rw [hb]
          rw [List.foldl_cons, hs, h₂ (items ++ [it]) c]
        | ok extra =>
          refine ⟨.ok ([it] ++ extra), L₂, fun items c => ?_⟩
          have hs : build_module_step ops tcx f (.ok (items, c)) (.DlImpl idid)
              = .ok (items ++ [it], c) := by
            simp only [build_module_step]
            rw [hb]
          rw [List.foldl_cons, hs, h₂ (items ++ [it]) c]
          simp [List.append_assoc]
    | DlField =>
      refine ⟨.error .unimplementedField, [], fun items c => ?_⟩
      rw [List.foldl_cons,
        show build_module_step ops tcx f (.ok (items, c)) .DlField
          = .error .unimplementedField from rfl, foldl_step_error]

theorem build_module_decomp (ops : CleanOps) (tcx : Tcx)
    (f : Def → PathCache → Except Fatal (Option (List Item) × PathCache))
    (hf : ∀ d, ∃ res L, ∀ c, f d c = cacheShape res L c) (did : DefId) :
    ∃ (mres : Except Fatal Module) (L : List CacheWrite), ∀ c,
      build_module ops tcx f did c
        = match mres with
          | .error e => .error e
          | .ok m => .ok (m, applyInserts L c) := by
  obtain ⟨out, L, hout⟩ := children_fold_decomp ops tcx f hf (tcx.each_child_of_item did)
  cases out with
  | error e =>
    refine ⟨.error e, L, fun c => ?_⟩
    simp only [build_module]
    rw [hout [] c]
  | ok extra =>
    refine ⟨.ok ⟨extra, false⟩, L, fun c => ?_⟩
    simp only [build_module]
    rw [hout [] c]
    simp

/-- Cache-effect decomposition of `try_inline_def`: its result does not read
the incoming cache, and its effect on the cache is the application of a
write list fixed by the metadata alone. -/
theorem try_inline_def_decomp (ops : CleanOps) (cx : DocContext) (tcx : Tcx) :
    ∀ (fuel : Nat) (df : Def), ∃ res L, ∀ c,
      try_inline_def ops cx tcx fuel df c = cacheShape res L c := by
  intro fuel
  induction fuel with
  | zero => intro df; exact ⟨.error .fuelExhausted, [], fun c => rfl⟩
  | succ fuel ih =>
    intro df
    cases df with
    | DefTrait d =>
      cases hl : (tcx.get_item_path d).getLast? with
      | none =>
        refine ⟨.error .unwrapFailed, recordInserts cx d .TypeTrait, fun c => ?_⟩
        simp only [try_inline_def, finish_item, def_id_of_def]
        rw [hl]
        rfl
      | some ls =>
        refine ⟨.ok (some ([] ++ [Item.mk Span.empty (some ls)
          (load_attrs ops tcx d) (.TraitItem (build_external_trait ops tcx d))
          (some .Public) d])), recordInserts cx d .TypeTrait, fun c => ?_⟩
        simp only [try_inline_def, finish_item, def_id_of_def]
        rw [hl, record_eq_applyInserts]
        rfl
    | DefFn d style =>
      cases hb : build_external_function ops tcx d style with
      | error e =>
        refine ⟨.error e, recordInserts cx d .TypeFunction, fun c => ?_⟩
        simp only [try_inline_def, def_id_of_def]
        rw [hb]
        rfl
      | ok fc =>
        cases hl : (tcx.get_item_path d).getLast? with
        | none =>
          refine ⟨.error .unwrapFailed, recordInserts cx d .TypeFunction, fun c => ?_⟩
          simp only [try_inline_def, finish_item, def_id_of_def]
          rw [hb, hl]
          rfl
        | some ls =>
          refine ⟨.ok (some ([] ++ [Item.mk Span.empty (some ls)
            (load_attrs ops tcx d) (.FunctionItem fc) (some .Public) d])),
            recordInserts cx d .TypeFunction, fun c => ?_⟩
          simp only [try_inline_def, finish_item, def_id_of_def]
          rw [hb, hl, record_eq_applyInserts]
          rfl
    | DefStruct d =>
      cases hb : build_impls ops tcx d with
      | error e =>
        refine ⟨.error e, recordInserts cx d .TypeStruct, fun c => ?_⟩
        simp only [try_inline_def, def_id_of_def]
        rw [hb]
        rfl
      | ok impls =>
        cases hl : (tcx.get_item_path d).getLast? with
        | none =>
          refine ⟨.error .unwrapFailed, recordInserts cx d .TypeStruct, fun c => ?_⟩
          simp only [try_inline_def, finish_item, def_id_of_def]
          rw [hb, hl]
          rfl
        | some ls =>
          refine ⟨.ok (some (impls ++ [Item.mk Span.empty (some ls)
            (load_attrs ops tcx d) (.StructItem (build_struct ops tcx d))
            (some .Public) d])), recordInserts cx d .TypeStruct, fun c => ?_⟩
          simp only [try_inline_def, finish_item, def_id_of_def]
          rw [hb, hl, record_eq_applyInserts]
          rfl
    | DefTy d =>
      cases hb : build_impls ops tcx d with
      | error e =>
        refine ⟨.error e, recordInserts cx d .TypeEnum, fun c => ?_⟩
        simp only [try_inline_def, def_id_of_def]
        rw [hb]
        rfl
      | ok impls =>
        cases hl : (tcx.get_item_path d).getLast? with
        | none =>
          refine ⟨.error .unwrapFailed, recordInserts cx d .TypeEnum, fun c => ?_⟩
          simp only [try_inline_def, finish_item, def_id_of_def]
          rw [hb, hl]
          rfl
        | some ls =>
          refine ⟨.ok (some (impls ++ [Item.mk Span.empty (some ls)
            (load_attrs ops tcx d) (build_type ops tcx d)
            (some .Public) d])), recordInserts cx d .TypeEnum, fun c => ?_⟩
          simp only [try_inline_def, finish_item, def_id_of_def]
          rw [hb, hl, record_eq_applyInserts]
          rfl
    | DefVariant ed vd => exact ⟨.ok (some []), [], fun c => rfl⟩
    | DefMod d =>
      obtain ⟨mres, Lm, hm⟩ := build_module_decomp ops tcx
        (try_inline_def ops cx tcx fuel) ih d
      cases mres with
      | error e =>
        refine ⟨.error e, recordInserts cx d .TypeModule ++ Lm, fun c => ?_⟩
        simp only [try_inline_def, def_id_of_def]
        rw [record_eq_applyInserts, hm]
        rfl
      | ok m =>
        cases hl : (tcx.get_item_path d).getLast? with
        | none =>
          refine ⟨.error .unwrapFailed, recordInserts cx d .TypeModule ++ Lm,
            fun c => ?_⟩
          simp only [try_inline_def, finish_item, def_id_of_def]
          rw [record_eq_applyInserts, hm, hl]
          rfl
        | some ls =>
          refine ⟨.ok (some ([] ++ [Item.mk Span.empty (some ls)
            (load_attrs ops tcx d) (.ModuleItem m) (some .Public) d])),
            recordInserts cx d .TypeModule ++ Lm, fun c => ?_⟩
          simp only [try_inline_def, finish_item, def_id_of_def]
          rw [record_eq_applyInserts, hm, hl]
          show Except.ok (_, applyInserts Lm (applyInserts (recordInserts cx d .TypeModule) c))
              = _
          rw [← applyInserts_append]
          rfl
    | DefStatic d m => exact ⟨.ok none, [], fun c => rfl⟩
    | DefTyParam d i => exact ⟨.ok none, [], fun c => rfl⟩

/-- Cache-effect decomposition of the entry point `try_inline`. -/
theorem try_inline_decomp (ops : CleanOps) (cx : DocContext) (id : NodeId)
    (fuel : Nat) : ∃ res L, ∀ c, try_inline ops cx id fuel c = cacheShape res L c := by
  obtain ⟨mt⟩ := cx
  cases mt with
  | NotTyped => exact ⟨.ok none, [], fun c => rfl⟩
  | Typed tcx =>
    cases hd : tcx.def_map id with
    | none =>
      refine ⟨.ok none, [], fun c => ?_⟩
      simp only [try_inline, hd]
      rfl
    | some df =>
      by_cases hloc : is_local (def_id_of_def df) = true
      · refine ⟨.ok none, [], fun c => ?_⟩
        simp only [try_inline, hd, hloc, if_true]
        rfl
      · obtain ⟨res, L, h⟩ := try_inline_def_decomp ops ⟨.Typed tcx⟩ tcx fuel df
        refine ⟨res, L, fun c => ?_⟩
        simp only [try_inline, hd]
        rw [if_neg hloc]
        exact h c

/-- Witness for claim C10 at the concrete struct with two inherent impls. -/
theorem impl_item_shape_witness :
    (implItem21.name = none ∧ implItem21.visibility = some .Inherited ∧
     implItem21.source = Span.empty ∧ implItem21.def_id = ⟨1, 21⟩) ∧
    ((∀ it ∈ ([implItem21, implItem22, structItem15] : List Item).dropLast,
        it.name = none ∧ it.visibility = some .Inherited) ∧
      ∃ lastIt,
        ([implItem21, implItem22, structItem15] : List Item).getLast? = some lastIt ∧
        lastIt.visibility = some .Public ∧ lastIt.name.isSome = true) :=
  ⟨impl_item_shape.1 O TCX ⟨1, 21⟩ implItem21 rfl,
   impl_item_shape.2 O CX TCX 0 ⟨1, 15⟩ PathCache.empty
     [implItem21, implItem22, structItem15]
     (record_extern_fqn CX ⟨1, 15⟩ .TypeStruct PathCache.empty) (.inl rfl)⟩

/-! Claim C3. -/

/-- Claim C3: reconstructing an external record type or sum type with N
inherent implementations yields exactly N+1 items, the implementation items
(in inherent-index order) preceding the single primary item, and the item
list is the same for any incoming cache state (stable across runs). -/
theorem recon_impl_count (ops : CleanOps) (cx : DocContext) (tcx : Tcx)
    (fuel : Nat) (d : DefId) (cache : PathCache) (ids : List DefId)
    (items : List Item) (cache' : PathCache) (df : Def)
    (hdf : df = Def.DefStruct d ∨ df = Def.DefTy d)
    (hids : tcx.inherent_impls d = some ids)
    (h : try_inline_def ops cx tcx (fuel + 1) df cache = .ok (some items, cache')) :
    items.length = ids.length + 1 ∧
    ∃ impls prim, items = impls ++ [prim] ∧
      build_impls ops tcx d = .ok impls ∧
      impls.length = ids.length ∧
      (∀ (i : Nat) (hi : i < ids.length) (hi' : i < impls.length),
        build_impl ops tcx (ids.get ⟨i, hi⟩) = .ok (impls.get ⟨i, hi'⟩)) ∧
      (∀ cache₂, ∃ cache₂',
        try_inline_def ops cx tcx (fuel + 1) df cache₂
          = .ok (some items, cache₂')) := by
  have stable : try_inline_def ops cx tcx (fuel + 1) df cache
        = .ok (some items, cache') →
      ∀ cache₂, ∃ cache₂', try_inline_def ops cx tcx (fuel + 1) df cache₂
        = .ok (some items, cache₂') := by
    intro horig cache₂
    obtain ⟨res, L, hL⟩ := try_inline_def_decomp ops cx tcx (fuel + 1) df
    rw [hL cache] at horig
    cases res with
    | error e => simp [cacheShape] at horig
    | ok r =>
      simp only [cacheShape] at horig
      obtain ⟨h1, -⟩ := Prod.mk.injEq .. ▸ (Except.ok.injEq .. ▸ horig)
      refine ⟨applyInserts L cache₂, ?_⟩
      rw [hL cache₂]
      simp [cacheShape, h1]
  rcases hdf with rfl | rfl
  · simp only [try_inline_def] at h
    cases hb : build_impls ops tcx d with
    | error e => rw [hb] at h; simp at h
    | ok impls =>
      rw [hb] at h
      obtain ⟨ls, _, _, hit⟩ := finish_item_ok _ _ _ _ _ _ _ _ h
      have hmap : mapE (fun idid => build_impl ops tcx idid) ids = .ok impls := by
        simp only [build_impls, hids] at hb
        exact hb
      have hlen := mapE_ok_length _ _ _ hmap
      constructor
      · rw [hit]
        simp [hlen]
      · refine ⟨impls, _, hit, rfl, hlen, ?_, ?_⟩
        · intro i hi hi'
          exact mapE_ok_get _ _ _ hmap i hi hi'
        · apply stable
          simp only [try_inline_def]
          rw [hb]
          exact h
  · simp only [try_inline_def] at h
    cases hb : build_impls ops tcx d with
    | error e => rw [hb] at h; simp at h
    | ok impls =>
      rw [hb] at h
      obtain ⟨ls, _, _, hit⟩ := finish_item_ok _ _ _ _ _ _ _ _ h
      have hmap : mapE (fun idid => build_impl ops tcx idid) ids = .ok impls := by
        simp only [build_impls, hids] at hb
        exact hb
      have hlen := mapE_ok_length _ _ _ hmap
      constructor
      · rw [hit]
        simp [hlen]
      · refine ⟨impls, _, hit, rfl, hlen, ?_, ?_⟩
        · intro i hi hi'
          exact mapE_ok_get _ _ _ hmap i hi hi'
        · apply stable
          simp only [try_inline_def]
          rw [hb]
          exact h

/-- Witness for claim C3 at the concrete struct with two inherent impls. -/
theorem recon_impl_count_witness :
    ([implItem21, implItem22, structItem15] : List Item).length
        = ([⟨1, 21⟩, ⟨1, 22⟩] : List DefId).length + 1 ∧
    ∃ impls prim,
      ([implItem21, implItem22, structItem15] : List Item) = impls ++ [prim] ∧
      build_impls O TCX ⟨1, 15⟩ = .ok impls ∧
      impls.length = ([⟨1, 21⟩, ⟨1, 22⟩] : List DefId).length ∧
      (∀ (i : Nat) (hi : i < ([⟨1, 21⟩, ⟨1, 22⟩] : List DefId).length)
        (hi' : i < impls.length),
        build_impl O TCX (([⟨1, 21⟩, ⟨1, 22⟩] : List DefId).get ⟨i, hi⟩)
          = .ok (impls.get ⟨i, hi'⟩)) ∧
      (∀ cache₂, ∃ cache₂',
        try_inline_def O CX TCX 1 (.DefStruct ⟨1, 15⟩) cache₂
          = .ok (some [implItem21, implItem22, structItem15], cache₂')) :=
  recon_impl_count O CX TCX 0 ⟨1, 15⟩ PathCache.empty [⟨1, 21⟩, ⟨1, 22⟩]
    [implItem21, implItem22, structItem15]
    (record_extern_fqn CX ⟨1, 15⟩ .TypeStruct PathCache.empty)
    (.DefStruct ⟨1, 15⟩) (.inl rfl) rfl rfl

/-! Claim C5. -/

/-- Claim C5: since the metadata store is immutable, repeated recording of
the same id and kind overwrites with an identical value, and resolving the
same node reference twice leaves the path cache (and the result) exactly as
after the first resolution. -/
theorem resolve_twice_idempotent (ops : CleanOps) (cx : DocContext)
    (id : NodeId) (fuel : Nat) (cache : PathCache) (r : Option (List Item))
    (cache' : PathCache)
    (h : try_inline ops cx id fuel cache = .ok (r, cache')) :
    try_inline ops cx id fuel cache' = .ok (r, cache') ∧
    ∀ (did : DefId) (kind : TypeKind) (c : PathCache),
      record_extern_fqn cx did kind (record_extern_fqn cx did kind c)
        = record_extern_fqn cx did kind c := by
  constructor
  · obtain ⟨res, L, hL⟩ := try_inline_decomp ops cx id fuel
    rw [hL cache] at h
    cases res with
    | error e => simp [cacheShape] at h
    | ok r0 =>
      simp only [cacheShape] at h
      obtain ⟨h1, h2⟩ := Prod.mk.injEq .. ▸ (Except.ok.injEq .. ▸ h)
      rw [hL cache']
      simp [cacheShape, h1, ← h2, applyInserts_idem]
  · intro did kind c
    rw [record_eq_applyInserts, record_eq_applyInserts]
    exact applyInserts_idem _ _

/-- Witness for claim C5: resolving the concrete external module from the
cache its first resolution produced returns the same items and the same
cache. -/
theorem resolve_twice_idempotent_witness :
    try_inline O CX 2 3 cacheAfterMod = .ok (some [modItem10], cacheAfterMod) :=
  (resolve_twice_idempotent O CX 2 3 PathCache.empty (some [modItem10])
    cacheAfterMod rfl).1

theorem try_inline_def_none_iff (ops : CleanOps) (cx : DocContext) (tcx : Tcx)
    (fuel : Nat) (df : Def) (cache cache' : PathCache) :
    try_inline_def ops cx tcx (fuel + 1) df cache = .ok (none, cache') ↔
      (supportedKind df = false ∧ cache' = cache) := by
  constructor
  · intro h
    cases df with
    | DefTrait d =>
      simp only [try_inline_def] at h
      exact absurd h (finish_item_never_none _ _ _ _ _ _ _)
    | DefFn d style =>
      simp only [try_inline_def] at h
      cases hb : build_external_function ops tcx d style with
      | error e => rw [hb] at h; simp at h
      | ok f =>
        rw [hb] at h
        exact absurd h (finish_item_never_none _ _ _ _ _ _ _)
    | DefStruct d =>
      simp only [try_inline_def] at h
      cases hb : build_impls ops tcx d with
      | error e => rw [hb] at h; simp at h
      | ok impls =>
        rw [hb] at h
        exact absurd h (finish_item_never_none _ _ _ _ _ _ _)
    | DefTy d =>
      simp only [try_inline_def] at h
      cases hb : build_impls ops tcx d with
      | error e => rw [hb] at h; simp at h
      | ok impls =>
        rw [hb] at h
        exact absurd h (finish_item_never_none _ _ _ _ _ _ _)
    | DefVariant ed vd => simp only [try_inline_def] at h; simp at h
    | DefMod d =>
      simp only [try_inline_def] at h
      cases hb : build_module ops tcx (try_inline_def ops cx tcx fuel) d
          (record_extern_fqn cx d .TypeModule cache) with
      | error e => rw [hb] at h; simp at h
      | ok p =>
        rw [hb] at h
        obtain ⟨m, cache₂⟩ := p
        exact absurd h (finish_item_never_none _ _ _ _ _ _ _)
    | DefStatic d m =>
      simp only [try_inline_def] at h
      exact ⟨rfl, ((Prod.mk.injEq .. ▸ (Except.ok.injEq .. ▸ h)).2).symm⟩
    | DefTyParam d i =>
      simp only [try_inline_def] at h
      exact ⟨rfl, ((Prod.mk.injEq .. ▸ (Except.ok.injEq .. ▸ h)).2).symm⟩
  · rintro ⟨hk, rfl⟩
    cases df with
    | DefStatic d m => rfl
    | DefTyParam d i => rfl
    | DefTrait d => simp [supportedKind] at hk
    | DefFn d style => simp [supportedKind] at hk
    | DefStruct d => simp [supportedKind] at hk
    | DefTy d => simp [supportedKind] at hk
    | DefVariant ed vd => simp [supportedKind] at hk
    | DefMod d => simp [supportedKind] at hk

/-- Counterexample for claim C1 as stated: for node 3 the context is typed,
the definition map holds the reference, the owning id is external — none of
the three claimed "no result" conditions holds — yet resolution returns no
result, because the definition's kind (a static) is unsupported. -/
theorem try_inline_none_counterexample :
    CX.maybe_typed = .Typed TCX ∧
    TCX.def_map 3 = some (.DefStatic ⟨1, 13⟩ false) ∧
    is_local (def_id_of_def (.DefStatic ⟨1, 13⟩ false)) = false ∧
    try_inline O CX 3 1 PathCache.empty = .ok (none, PathCache.empty) :=
  ⟨rfl, rfl, rfl, rfl⟩

/-- Claim C1 as amended: the entry point returns no result exactly when the
context holds no type information, the reference is absent from the
definition map, the owning id is local, or the definition's kind is
unsupported for inlining; in particular it always returns no result for a
local id. The cache is left untouched in every such case. -/
theorem try_inline_none_iff (ops : CleanOps) (cx : DocContext) (id : NodeId)
    (fuel : Nat) (cache : PathCache) :
    try_inline ops cx id (fuel + 1) cache = .ok (none, cache) ↔
      (cx.maybe_typed = .NotTyped ∨
       ∃ tcx, cx.maybe_typed = .Typed tcx ∧
         (tcx.def_map id = none ∨
          ∃ df, tcx.def_map id = some df ∧
            (is_local (def_id_of_def df) = true ∨ supportedKind df = false))) := by
  obtain ⟨mt⟩ := cx
  cases mt with
  | NotTyped =>
    constructor
    · intro _
      exact .inl rfl
    · intro _
      rfl
  | Typed tcx =>
    cases hd : tcx.def_map id with
    | none =>
      constructor
      · intro _
        exact .inr ⟨tcx, rfl, .inl hd⟩
      · intro _
        simp only [try_inline, hd]
    | some df =>
      by_cases hloc : is_local (def_id_of_def df) = true
      · constructor
        · intro _
          exact .inr ⟨tcx, rfl, .inr ⟨df, hd, .inl hloc⟩⟩
        · intro _
          simp only [try_inline, hd, hloc, if_true]
      · have hstep : try_inline ops ⟨.Typed tcx⟩ id (fuel + 1) cache
            = try_inline_def ops ⟨.Typed tcx⟩ tcx (fuel + 1) df cache := by
          simp only [try_inline, hd]
          rw [if_neg hloc]
        rw [hstep, try_inline_def_none_iff]
        constructor
        · rintro ⟨hk, -⟩
          exact .inr ⟨tcx, rfl, .inr ⟨df, hd, .inr hk⟩⟩
        · rintro (hnt | ⟨tcx', htcx', hrest⟩)
          · cases hnt
          · cases htcx'
            rcases hrest with hnone | ⟨df', hdf', hcase⟩
            · rw [hd] at hnone; cases hnone
            · rw [hd] at hdf'
              cases hdf'
              rcases hcase with hl | hk
              · exact absurd hl hloc
              · exact ⟨hk, rfl⟩

end Rustdoc
